import Mathlib

/-!
Shallow embedding of the edyna-consumer-stats pipeline:
numeric-string normalization, source-date parsing, the monthly series
selector, the daily-table row processing, and the database upsert of
daily hourly readings (`saveDailyHourlyData` in `src/scheduler.js`).
Floating-point numbers of the source are modelled as rationals, JS
`Date` timestamps as day numbers (proleptic Gregorian day count), and
the `timestamp` column of a stored row as the pair (day number, hour).
-/

set_option maxRecDepth 4000

namespace Edyna

/-! ## Numeric-string normalization

`normalizeNumber` embeds the helper of the same name in the daily
scraper (`scrapeDailyHourlyUsage`): it nulls out `""`, `"-"`, `"N/A"`,
removes every dot, converts the first comma to a dot, keeps only
digits, dots and minus signs, and parses with `parseFloat`
(`Number.isFinite` turns a failed parse into null).  `normalizeMonthly`
embeds the inline normalization of `scrapeMonthlyActiveEnergy`, which
differs only in its guard (`!raw`) and in stripping the minus sign. -/

/-- Decimal value of a list of digit characters, most significant first. -/
def digitsVal (cs : List Char) : Nat :=
  cs.foldl (fun n c => n * 10 + (c.toNat - 48)) 0

/-- The fractional digit group after the integer digits: the digits
following a dot, when a dot follows immediately. -/
def fracDigits (cs : List Char) : List Char :=
  match cs.dropWhile Char.isDigit with
  | '.' :: t => t.takeWhile Char.isDigit
  | _ => []

/-- JS `parseFloat` on a string made only of digits, dots and minus signs:
parse the longest prefix of the form `digits* ('.' digits*)?`; fail
(JS `NaN`) when the mantissa has no digit at all. -/
def parseFloatPos (cs : List Char) : Option ℚ :=
  if (cs.takeWhile Char.isDigit).isEmpty && (fracDigits cs).isEmpty then none
  else some ((digitsVal (cs.takeWhile Char.isDigit) : ℚ)
    + (digitsVal (fracDigits cs) : ℚ) / ((10 : ℚ) ^ (fracDigits cs).length))

/-- JS `parseFloat` including an optional leading minus sign. -/
def parseFloatQ (cs : List Char) : Option ℚ :=
  if cs.head? = some '-' then (parseFloatPos cs.tail).map Neg.neg
  else parseFloatPos cs

/-- Replace the first comma of the list by a dot: JS `str.replace(',', '.')`
with a plain-string pattern replaces only the first occurrence. -/
def replaceFirstComma : List Char → List Char
  | [] => []
  | c :: t => if c = ',' then '.' :: t else c :: replaceFirstComma t

/-- The daily scraper helper `normalizeNumber` (`src` daily scraper,
`scrapeDailyHourlyUsage`). -/
def normalizeNumber (s : String) : Option ℚ :=
  if s = "" || s = "-" || s = "N/A" then none
  else
    let s1 := s.data.filter (fun c => c ≠ '.')
    let s2 := replaceFirstComma s1
    let s3 := s2.filter (fun c => c.isDigit || c = '.' || c = '-')
    if s3.isEmpty then none else parseFloatQ s3

/-- The character pipeline of the monthly normalization: remove dots,
first comma to dot, then keep only digits and dots. -/
def monthlyDigits (raw : String) : List Char :=
  (replaceFirstComma (raw.data.filter (fun c => c ≠ '.'))).filter
    (fun c => c.isDigit || c = '.')

/-- The inline normalization of the monthly scraper (`scrapeMonthlyActiveEnergy`):
same pipeline as `normalizeNumber` but with the `!raw` guard only, and a
stray-character strip keeping only digits and dots. -/
def normalizeMonthly (raw : String) : Option ℚ :=
  if raw = "" then none
  else if (monthlyDigits raw).isEmpty then none
  else parseFloatQ (monthlyDigits raw)

/-! ## Source-date parsing

`saveDailyHourlyData` reconstructs a calendar timestamp from
`day.date`: first the regex `^\d{2}[/.]\d{2}[/.]\d{4}$` read as
day/month/year through `new Date(y, m - 1, d)`, then
`^\d{4}-\d{2}-\d{2}$` through the ISO parser `new Date(str)`, then the
permissive native parser as a fallback.  We model a timestamp by its
day number (days since 1970-01-01); the process runs in the UTC zone of the container, so both successful branches land on the civil date itself.
The native fallback parser is an external capability and is passed in
as a parameter `np`. -/

/-- Day number (days since 1970-01-01) of the first day of month `m ∈ [1,12]`
of year `y`, proleptic Gregorian calendar. -/
def daysFromCivilMonthStart (y : Int) (m : Nat) : Int :=
  let y2 := if m ≤ 2 then y - 1 else y
  let era := y2.fdiv 400
  let yoe := y2 - era * 400
  let mp : Int := if 2 < m then (m : Int) - 3 else (m : Int) + 9
  let doy := (153 * mp + 2).fdiv 5
  let doe := yoe * 365 + yoe.fdiv 4 - yoe.fdiv 100 + doy
  era * 146097 + doe - 719468

/-- Day number of the civil date `y-m-d` (for `m ∈ [1,12]`, `d ≥ 1`). -/
def civilDay (y : Int) (m d : Nat) : Int :=
  daysFromCivilMonthStart y m + ((d : Int) - 1)

/-- JS `new Date(y, mIdx, d)` reduced to a day number: the month index is
normalized into the year, days overflow into adjacent months, and a year
in `[0, 99]` is read as `1900 + y` (the two-digit-year rule of the
multi-argument `Date` constructor). -/
def mkDateJS (y mIdx d : Int) : Int :=
  let yAdj := if 0 ≤ y ∧ y ≤ 99 then y + 1900 else y
  let ym := yAdj + mIdx.fdiv 12
  let m0 := mIdx.emod 12
  daysFromCivilMonthStart ym (m0.toNat + 1) + (d - 1)

/-- Gregorian leap-year test. -/
def isLeap (y : Int) : Bool :=
  (y.emod 4 = 0 && y.emod 100 ≠ 0) || y.emod 400 = 0

/-- Number of days of month `m` of year `y`. -/
def daysInMonth (y : Int) (m : Nat) : Nat :=
  if m = 2 then (if isLeap y then 29 else 28)
  else if m = 4 ∨ m = 6 ∨ m = 9 ∨ m = 11 then 30
  else 31

/-- The regex `^\d{2}[/.]\d{2}[/.]\d{4}$` together with
`split(/[/.]/).map(Number)`: ten characters, two digit pairs and a
four-digit group separated by `/` or `.`; yields `(day, month, year)`. -/
def matchDMY (s : String) : Option (Nat × Nat × Nat) :=
  match s.data with
  | [a, b, s1, c, d, s2, e, f, g, h] =>
    if a.isDigit && b.isDigit && c.isDigit && d.isDigit &&
        e.isDigit && f.isDigit && g.isDigit && h.isDigit &&
        (s1 = '/' || s1 = '.') && (s2 = '/' || s2 = '.') then
      some (digitsVal [a, b], digitsVal [c, d], digitsVal [e, f, g, h])
    else none
  | _ => none

/-- The regex `^\d{4}-\d{2}-\d{2}$`: yields `(year, month, day)`. -/
def matchISO (s : String) : Option (Nat × Nat × Nat) :=
  match s.data with
  | [a, b, c, d, s1, e, f, s2, g, h] =>
    if a.isDigit && b.isDigit && c.isDigit && d.isDigit &&
        e.isDigit && f.isDigit && g.isDigit && h.isDigit &&
        s1 = '-' && s2 = '-' then
      some (digitsVal [a, b, c, d], digitsVal [e, f], digitsVal [g, h])
    else none
  | _ => none

/-- The date-parsing ladder of `saveDailyHourlyData`: day/month/year via the
multi-argument `Date` constructor, then strict ISO `YYYY-MM-DD` (invalid
component ranges give an Invalid Date, hence `none`), then the native
fallback parser `np`; `none` models an `isNaN(timestamp.getTime())`
result, which the caller skips with a warning. -/
def parseSourceDate (np : String → Option Int) (s : String) : Option Int :=
  match matchDMY s with
  | some (d, m, y) => some (mkDateJS (y : Int) ((m : Int) - 1) (d : Int))
  | none =>
    match matchISO s with
    | some (y, m, d) =>
      if 1 ≤ m ∧ m ≤ 12 ∧ 1 ≤ d ∧ d ≤ daysInMonth (y : Int) m then
        some (civilDay (y : Int) m d)
      else none
    | none => np s

/-! ## The persisted store and `saveDailyHourlyData`

A stored row of `daily_hourly_consumption` (`kwh`, `month_name`,
`source_date`, `created_at`, `updated_at`); the primary key
`(timestamp, hour)` is the association-list key, with the timestamp
reduced to its day number (the code sets the time-of-day of the timestamp to
the hour it also stores in the `hour` column, so the pair
(day number, hour) determines the key of the row).  `created_at` and
`updated_at` hold an abstract clock value `now` passed to the upsert. -/

structure Row where
  kwh : ℚ
  monthName : Option String
  sourceDate : String
  createdAt : Nat
  updatedAt : Nat
deriving DecidableEq

/-- Primary key: (timestamp day number, hour). -/
abbrev Key := Int × Nat

/-- The table, as an association list keyed by `Key`. -/
abbrev Store := List (Key × Row)

/-- The query `SELECT kwh FROM daily_hourly_consumption WHERE timestamp = $1
AND hour = $2` (here returning the whole row). -/
def lookupS (s : Store) (k : Key) : Option Row :=
  match s.find? (fun p => decide (p.1 = k)) with
  | some p => some p.2
  | none => none

/-- The `DO UPDATE SET kwh, month_name, source_date, updated_at = NOW()`
arm of the upsert: replace those four fields of the row at key `k`,
keeping `created_at`. -/
def updateRow (s : Store) (k : Key) (v : ℚ) (mn : Option String) (ds : String)
    (now : Nat) : Store :=
  s.map (fun p => if p.1 = k then (p.1, ⟨v, mn, ds, p.2.createdAt, now⟩) else p)

/-- One `(timestamp, hour)` slot of `saveDailyHourlyData`
(`src/scheduler.js`): check the existing `kwh`; insert when the key is
absent (counting it inserted), overwrite when `kwh - existingKwh > 0.001`
(counting it updated), otherwise leave the table untouched. -/
def upsertHour (now : Nat) (mn : Option String) (ds : String) (k : Key) (v : ℚ)
    (st : Store × Nat × Nat) : Store × Nat × Nat :=
  match lookupS st.1 k with
  | none => ((k, ⟨v, mn, ds, now, now⟩) :: st.1, st.2.1 + 1, st.2.2)
  | some r =>
    if (1 : ℚ) / 1000 < v - r.kwh then
      (updateRow st.1 k v mn ds now, st.2.1, st.2.2 + 1)
    else st

/-- A day of the daily batch: the raw source date text, the hour map
(label `"HH:00"` to parsed value or null) and the reported total. -/
structure DayReading where
  date : String
  hours : List (String × Option ℚ)
  total_kwh : ℚ
deriving DecidableEq

/-- The batch handed to the store: `{year, month, days}`. -/
structure DailyBatch where
  year : Int
  month : Option String
  days : List DayReading

/-- The canonical label `"HH:00"` of hour `h` (`String(h).padStart(2, '0')`). -/
def hourLabel (h : Nat) : String :=
  (if h < 10 then "0" ++ toString h else toString h) ++ ":00"

/-- The read `day.hours[label]`: a missing key behaves like a null value (the
caller skips `null` and `undefined` alike). -/
def hoursLookup (hs : List (String × Option ℚ)) (lbl : String) : Option ℚ :=
  match hs.find? (fun p => decide (p.1 = lbl)) with
  | some p => p.2
  | none => none

/-- One day of `saveDailyHourlyData`: parse the date (skipping the whole
day when no strategy yields a valid one), then walk hours `0..23` via
their `"HH:00"` labels, skipping null slots and upserting the rest. -/
def upsertDay (np : String → Option Int) (now : Nat) (mn : Option String)
    (st : Store × Nat × Nat) (day : DayReading) : Store × Nat × Nat :=
  match parseSourceDate np day.date with
  | none => st
  | some dn =>
    (List.range 24).foldl (fun acc h =>
      match hoursLookup day.hours (hourLabel h) with
      | none => acc
      | some v => upsertHour now mn day.date (dn, h) v acc) st

/-- The pure transaction body of `saveDailyHourlyData`: fold the days of the batch
over the store, returning the new store and the inserted/updated counts. -/
def upsertBatch (np : String → Option Int) (now : Nat) (s : Store)
    (b : DailyBatch) : Store × Nat × Nat :=
  b.days.foldl (upsertDay np now b.month) (s, 0, 0)

/-! ## The transactional wrapper

`saveDailyHourlyData` wraps the batch in `BEGIN` / `COMMIT`, and its
`catch` arm issues `ROLLBACK` and rethrows.  We model the database
client by the committed store plus the transaction-local store, each
`client.query` call as a numbered step that an error oracle `failAt`
may make throw, `ROLLBACK` as discarding the transaction-local store,
and `COMMIT` as publishing it. -/

/-- One `client.query` call: the `c`-th query of the run throws iff the
oracle designates it. -/
def qstep (failAt : Option Nat) (c : Nat) : Except Unit Nat :=
  if failAt = some c then Except.error () else Except.ok (c + 1)

/-- The slot step `upsertHour` with its two queries (the `SELECT`, then the conditional
`INSERT ... ON CONFLICT DO UPDATE`) threaded through the error oracle. -/
def upsertHourE (failAt : Option Nat) (now : Nat) (mn : Option String) (ds : String)
    (k : Key) (v : ℚ) (st : Store × Nat × Nat) (c : Nat) :
    Except Unit ((Store × Nat × Nat) × Nat) := do
  let c1 ← qstep failAt c
  match lookupS st.1 k with
  | none => do
    let c2 ← qstep failAt c1
    pure (((k, ⟨v, mn, ds, now, now⟩) :: st.1, st.2.1 + 1, st.2.2), c2)
  | some r =>
    if (1 : ℚ) / 1000 < v - r.kwh then do
      let c2 ← qstep failAt c1
      pure ((updateRow st.1 k v mn ds now, st.2.1, st.2.2 + 1), c2)
    else pure (st, c1)

/-- The day step `upsertDay` in the transaction: a day with an unparsable date issues
no query at all. -/
def upsertDayE (np : String → Option Int) (failAt : Option Nat) (now : Nat)
    (mn : Option String) (stc : (Store × Nat × Nat) × Nat) (day : DayReading) :
    Except Unit ((Store × Nat × Nat) × Nat) :=
  match parseSourceDate np day.date with
  | none => pure stc
  | some dn =>
    (List.range 24).foldlM (fun acc h =>
      match hoursLookup day.hours (hourLabel h) with
      | none => pure acc
      | some v => upsertHourE failAt now mn day.date (dn, h) v acc.1 acc.2) stc

/-- The wrapper `saveDailyHourlyData` with its transaction: `BEGIN`, the per-day
loop, `COMMIT`; on any error the catch arm rolls the transaction back
(the committed store is returned unchanged) and rethrows.  The result
is the committed store together with the propagated outcome. -/
def saveDailyHourlyDataE (np : String → Option Int) (failAt : Option Nat)
    (now : Nat) (committed : Store) (b : DailyBatch) :
    Store × Except Unit (Nat × Nat) :=
  let run : Except Unit ((Store × Nat × Nat) × Nat) := do
    let c0 ← qstep failAt 0
    let r ← b.days.foldlM (upsertDayE np failAt now b.month) ((committed, 0, 0), c0)
    let cEnd ← qstep failAt r.2
    pure (r.1, cEnd)
  match run with
  | Except.ok r => (r.1.1, Except.ok (r.1.2.1, r.1.2.2))
  | Except.error e => (committed, Except.error e)

/-! ## Row processing of the daily scraper

The pure tail of `scrapeDailyHourlyUsage`: a scraped table row is the
date cell plus the raw hourly value cells; for each row the code builds
the hour map over hours `0 ≤ h < min(24, cells)`, sums the non-null
values, rounds the total with `toFixed(3)`, and pushes the day only
when at least one value is non-null. -/

/-- A scraped table row as returned by the DOM extraction. -/
structure DayRow where
  dateCell : String
  hourlyValues : List String
deriving DecidableEq

/-- JS `parseFloat(x.toFixed(3))`: round to 3 decimals, ties away from
zero upward (ECMA `toFixed` picks the larger candidate). -/
def round3 (q : ℚ) : ℚ := ((⌊q * 1000 + 1 / 2⌋ : ℤ) : ℚ) / 1000

/-- The hour map a row produces: the first `min(24, cells)` value cells,
labelled `"00:00"`, `"01:00"`, … in order, each normalized. -/
def dayHours (dr : DayRow) : List (String × Option ℚ) :=
  (dr.hourlyValues.take 24).enum.map
    (fun p => (hourLabel p.1, normalizeNumber p.2))

/-- One row of the daily table: build the hour map, total the non-null
values (`validValues` is their count), round with `toFixed(3)`, and keep
the day only when `validValues > 0`. -/
def processDay (dr : DayRow) : Option DayReading :=
  if 0 < ((dayHours dr).filterMap Prod.snd).length then
    some ⟨dr.dateCell, dayHours dr, round3 ((dayHours dr).filterMap Prod.snd).sum⟩
  else none

/-- The `days` list of the scraper result object: the rows processed in
order, the qualifying ones pushed. -/
def scrapeDays (rows : List DayRow) : List DayReading :=
  rows.foldl (fun acc r =>
    match processDay r with
    | some d => acc ++ [d]
    | none => acc) []

/-! ## The monthly series selector

`findLatestNonNullMonthAndClick` walks the month headers from the last
index downward and stops at the first month whose parsed value is
neither null nor undefined; the parsed values live in a map keyed by
month name. -/

/-- The backward scan: `scanBack months parsed n` inspects indices
`n-1, n-2, …, 0` and returns the first month (with its index) whose
parsed value is present. -/
def scanBack (months : List String) (parsed : String → Option ℚ) :
    Nat → Option (String × Nat)
  | 0 => none
  | n + 1 =>
    match months[n]? with
    | some name =>
      if (parsed name).isSome then some (name, n)
      else scanBack months parsed n
    | none => scanBack months parsed n

/-- The selection logic of `findLatestNonNullMonthAndClick`: scan from
`months.length - 1` down to `0`. -/
def selectLatest (months : List String) (parsed : String → Option ℚ) :
    Option (String × Nat) :=
  scanBack months parsed months.length

/-- The wording of the specification: walk the ordered month sequence *from
the end backward* and return the first entry whose parsed value is
non-null, with its index. -/
def firstHit (parsed : String → Option ℚ) :
    List (Nat × String) → Option (String × Nat)
  | [] => none
  | (i, name) :: rest =>
    if (parsed name).isSome then some (name, i) else firstHit parsed rest

/-- The rendering of the claim for `selectLatest`, literally following its
words. -/
def selectLatestSpec (months : List String) (parsed : String → Option ℚ) :
    Option (String × Nat) :=
  firstHit parsed months.enum.reverse

/-! ## Store lemmas -/

theorem lookupS_cons (p : Key × Row) (s : Store) (k : Key) :
    lookupS (p :: s) k = if p.1 = k then some p.2 else lookupS s k := by
  by_cases h : p.1 = k <;> simp [lookupS, List.find?_cons, h]

theorem updateRow_cons (p : Key × Row) (t : Store) (k : Key) (v : ℚ)
    (mn : Option String) (ds : String) (now : Nat) :
    updateRow (p :: t) k v mn ds now =
      (if p.1 = k then (p.1, ⟨v, mn, ds, p.2.createdAt, now⟩) else p)
        :: updateRow t k v mn ds now := rfl

theorem lookupS_updateRow (s : Store) (k k2 : Key) (v : ℚ) (mn : Option String)
    (ds : String) (now : Nat) :
    lookupS (updateRow s k v mn ds now) k2 =
      if k2 = k then (lookupS s k).map (fun r => ⟨v, mn, ds, r.createdAt, now⟩)
      else lookupS s k2 := by
  induction s with
  | nil => by_cases h : k2 = k <;> simp [updateRow, lookupS, h]
  | cons p t ih =>
    by_cases hp : p.1 = k
    · by_cases hk : k2 = k
      · subst hk
        simp [updateRow_cons, lookupS_cons, hp]
      · have hpk2 : ¬ p.1 = k2 := fun hc => hk (by rw [← hc, hp])
        simp [updateRow_cons, lookupS_cons, hp, hk, hpk2, Ne.symm hk, ih]
    · by_cases hk : k2 = k
      · subst hk
        simp [updateRow_cons, lookupS_cons, hp, ih]
      · by_cases hpk2 : p.1 = k2
        · simp [updateRow_cons, lookupS_cons, hp, hk, hpk2]
        · simp [updateRow_cons, lookupS_cons, hp, hk, hpk2, ih]

/-- Case of `upsertHour` on an absent key: insert and count it inserted. -/
theorem upsertHour_insert (now : Nat) (mn : Option String) (ds : String) (k : Key)
    (v : ℚ) (s : Store) (ins upd : Nat) (h : lookupS s k = none) :
    upsertHour now mn ds k v (s, ins, upd) =
      ((k, ⟨v, mn, ds, now, now⟩) :: s, ins + 1, upd) := by
  simp only [upsertHour, h]

/-- Case of `upsertHour` on a present key with `v - existing > 0.001`:
overwrite and count it updated. -/
theorem upsertHour_update (now : Nat) (mn : Option String) (ds : String) (k : Key)
    (v : ℚ) (s : Store) (ins upd : Nat) (r : Row) (h : lookupS s k = some r)
    (hv : (1 : ℚ) / 1000 < v - r.kwh) :
    upsertHour now mn ds k v (s, ins, upd) =
      (updateRow s k v mn ds now, ins, upd + 1) := by
  simp only [upsertHour, h]
  rw [if_pos hv]

/-- Case of `upsertHour` on a present key without `v - existing > 0.001`:
the store and both counters are returned untouched. -/
theorem upsertHour_skip (now : Nat) (mn : Option String) (ds : String) (k : Key)
    (v : ℚ) (s : Store) (ins upd : Nat) (r : Row) (h : lookupS s k = some r)
    (hv : ¬ (1 : ℚ) / 1000 < v - r.kwh) :
    upsertHour now mn ds k v (s, ins, upd) = (s, ins, upd) := by
  simp only [upsertHour, h]
  rw [if_neg hv]

/-! ## Flattening a batch into its ordered slot operations -/

/-- One slot operation (key, value, source date text) applied to the
running state. -/
def hourStep (now : Nat) (mn : Option String) (st : Store × Nat × Nat)
    (o : Key × ℚ × String) : Store × Nat × Nat :=
  upsertHour now mn o.2.2 o.1 o.2.1 st

/-- The ordered slot operations a day contributes: none when its date is
unparsable, otherwise one per non-null hour slot. -/
def dayOps (np : String → Option Int) (day : DayReading) : List (Key × ℚ × String) :=
  match parseSourceDate np day.date with
  | none => []
  | some dn =>
    (List.range 24).filterMap (fun h =>
      (hoursLookup day.hours (hourLabel h)).map (fun v => ((dn, h), v, day.date)))

/-- The ordered slot operations of the whole batch. -/
def batchOps (np : String → Option Int) (b : DailyBatch) : List (Key × ℚ × String) :=
  b.days.flatMap (dayOps np)

theorem upsertDay_ops_aux (now : Nat) (mn : Option String)
    (day : DayReading) (dn : Int) :
    ∀ (l : List Nat) (st : Store × Nat × Nat),
      l.foldl (fun acc h =>
        match hoursLookup day.hours (hourLabel h) with
        | none => acc
        | some v => upsertHour now mn day.date (dn, h) v acc) st
      = (l.filterMap (fun h =>
          (hoursLookup day.hours (hourLabel h)).map
            (fun v => ((dn, h), v, day.date)))).foldl (hourStep now mn) st := by
  intro l
  induction l with
  | nil => intro st; rfl
  | cons a t ih =>
    intro st
    cases h : hoursLookup day.hours (hourLabel a) <;>
      simp [List.filterMap_cons, h, ih, hourStep]

theorem upsertDay_eq_ops (np : String → Option Int) (now : Nat) (mn : Option String)
    (st : Store × Nat × Nat) (day : DayReading) :
    upsertDay np now mn st day = (dayOps np day).foldl (hourStep now mn) st := by
  cases h : parseSourceDate np day.date with
  | none => simp [upsertDay, dayOps, h]
  | some dn =>
    simp only [upsertDay, dayOps, h]
    exact upsertDay_ops_aux now mn day dn (List.range 24) st

theorem foldl_flatMapL {α β γ : Type _} (g : α → List β) (f : γ → β → γ) :
    ∀ (l : List α) (init : γ),
      (l.flatMap g).foldl f init = l.foldl (fun acc a => (g a).foldl f acc) init := by
  intro l
  induction l with
  | nil => intro init; rfl
  | cons a t ih => intro init; simp [List.foldl_append, ih]

theorem upsertBatch_eq_ops (np : String → Option Int) (now : Nat) (s : Store)
    (b : DailyBatch) :
    upsertBatch np now s b = (batchOps np b).foldl (hourStep now b.month) (s, 0, 0) := by
  simp only [upsertBatch, batchOps, foldl_flatMapL]
  have hfun :
      (fun (acc : Store × Nat × Nat) (day : DayReading) =>
          (dayOps np day).foldl (hourStep now b.month) acc)
        = upsertDay np now b.month := by
    funext acc day
    exact (upsertDay_eq_ops np now b.month acc day).symm
  rw [hfun]

/-! ## Monotone growth and idempotence of the upsert -/

theorem hourStep_mono (now : Nat) (mn : Option String) (st : Store × Nat × Nat)
    (o : Key × ℚ × String) (k : Key) (r : Row) (h : lookupS st.1 k = some r) :
    ∃ r2, lookupS (hourStep now mn st o).1 k = some r2 ∧ r.kwh ≤ r2.kwh := by
  have hst : hourStep now mn st o
      = upsertHour now mn o.2.2 o.1 o.2.1 (st.1, st.2.1, st.2.2) := rfl
  cases hl : lookupS st.1 o.1 with
  | none =>
    have hk : ¬ o.1 = k := fun hc => by rw [hc, h] at hl; cases hl
    rw [hst, upsertHour_insert now mn o.2.2 o.1 o.2.1 st.1 st.2.1 st.2.2 hl]
    refine ⟨r, ?_, le_refl _⟩
    show lookupS ((o.1, ⟨o.2.1, mn, o.2.2, now, now⟩) :: st.1) k = some r
    rw [lookupS_cons, if_neg hk]
    exact h
  | some r3 =>
    by_cases hv : (1 : ℚ) / 1000 < o.2.1 - r3.kwh
    · rw [hst, upsertHour_update now mn o.2.2 o.1 o.2.1 st.1 st.2.1 st.2.2 r3 hl hv]
      by_cases hk : k = o.1
      · subst hk
        rw [h] at hl
        have hr : r = r3 := Option.some.inj hl
        subst hr
        refine ⟨⟨o.2.1, mn, o.2.2, r.createdAt, now⟩, ?_, by linarith⟩
        show lookupS (updateRow st.1 o.1 o.2.1 mn o.2.2 now) o.1 = _
        rw [lookupS_updateRow, if_pos rfl, h]
        rfl
      · refine ⟨r, ?_, le_refl _⟩
        show lookupS (updateRow st.1 o.1 o.2.1 mn o.2.2 now) k = some r
        rw [lookupS_updateRow, if_neg hk]
        exact h
    · rw [hst, upsertHour_skip now mn o.2.2 o.1 o.2.1 st.1 st.2.1 st.2.2 r3 hl hv]
      exact ⟨r, h, le_refl _⟩

theorem foldl_hourStep_mono (now : Nat) (mn : Option String) :
    ∀ (ops : List (Key × ℚ × String)) (st : Store × Nat × Nat) (k : Key) (c : ℚ),
      (∃ r, lookupS st.1 k = some r ∧ c ≤ r.kwh) →
      ∃ r2, lookupS ((ops.foldl (hourStep now mn) st)).1 k = some r2 ∧ c ≤ r2.kwh := by
  intro ops
  induction ops with
  | nil => intro st k c h; simpa using h
  | cons o t ih =>
    intro st k c h
    obtain ⟨r, hr, hc⟩ := h
    obtain ⟨r2, hr2, hle⟩ := hourStep_mono now mn st o k r hr
    exact ih (hourStep now mn st o) k c ⟨r2, hr2, le_trans hc hle⟩

theorem hourStep_covers (now : Nat) (mn : Option String) (st : Store × Nat × Nat)
    (o : Key × ℚ × String) :
    ∃ r, lookupS (hourStep now mn st o).1 o.1 = some r ∧ o.2.1 - r.kwh ≤ 1 / 1000 := by
  have hst : hourStep now mn st o
      = upsertHour now mn o.2.2 o.1 o.2.1 (st.1, st.2.1, st.2.2) := rfl
  cases hl : lookupS st.1 o.1 with
  | none =>
    rw [hst, upsertHour_insert now mn o.2.2 o.1 o.2.1 st.1 st.2.1 st.2.2 hl]
    refine ⟨⟨o.2.1, mn, o.2.2, now, now⟩, ?_, by norm_num⟩
    show lookupS ((o.1, ⟨o.2.1, mn, o.2.2, now, now⟩) :: st.1) o.1 = _
    rw [lookupS_cons, if_pos rfl]
  | some r3 =>
    by_cases hv : (1 : ℚ) / 1000 < o.2.1 - r3.kwh
    · rw [hst, upsertHour_update now mn o.2.2 o.1 o.2.1 st.1 st.2.1 st.2.2 r3 hl hv]
      refine ⟨⟨o.2.1, mn, o.2.2, r3.createdAt, now⟩, ?_, by norm_num⟩
      show lookupS (updateRow st.1 o.1 o.2.1 mn o.2.2 now) o.1 = _
      rw [lookupS_updateRow, if_pos rfl, hl]
      rfl
    · rw [hst, upsertHour_skip now mn o.2.2 o.1 o.2.1 st.1 st.2.1 st.2.2 r3 hl hv]
      exact ⟨r3, hl, le_of_not_lt hv⟩

theorem foldl_hourStep_covered (now : Nat) (mn : Option String) :
    ∀ (ops : List (Key × ℚ × String)) (st : Store × Nat × Nat)
      (o : Key × ℚ × String), o ∈ ops →
      ∃ r, lookupS ((ops.foldl (hourStep now mn) st)).1 o.1 = some r ∧
        o.2.1 - r.kwh ≤ 1 / 1000 := by
  intro ops
  induction ops with
  | nil => intro st o ho; cases ho
  | cons a t ih =>
    intro st o ho
    rcases List.mem_cons.mp ho with he | ht
    · subst he
      obtain ⟨r, hr, hc⟩ := hourStep_covers now mn st o
      obtain ⟨r2, hr2, hle⟩ :=
        foldl_hourStep_mono now mn t (hourStep now mn st o) o.1 (o.2.1 - 1 / 1000)
          ⟨r, hr, by linarith⟩
      exact ⟨r2, by simpa using hr2, by linarith⟩
    · rw [List.foldl_cons]
      exact ih (hourStep now mn st a) o ht

theorem foldl_hourStep_skip (now : Nat) (mn : Option String) :
    ∀ (ops : List (Key × ℚ × String)) (st : Store × Nat × Nat),
      (∀ o ∈ ops, ∃ r, lookupS st.1 o.1 = some r ∧ o.2.1 - r.kwh ≤ 1 / 1000) →
      ops.foldl (hourStep now mn) st = st := by
  intro ops
  induction ops with
  | nil => intro st _; rfl
  | cons a t ih =>
    intro st h
    obtain ⟨r, hr, hc⟩ := h a (List.mem_cons_self a t)
    have hstep : hourStep now mn st a = st := by
      have hst : st = (st.1, st.2.1, st.2.2) := rfl
      rw [hst]
      exact upsertHour_skip now mn a.2.2 a.1 a.2.1 st.1 st.2.1 st.2.2 r hr
        (not_lt.mpr (by linarith))
    rw [List.foldl_cons, hstep]
    exact ih st (fun o ho => h o (List.mem_cons_of_mem a ho))

/-! ## Helpers for evaluating small concrete batches -/

theorem foldl_skip_all {α γ : Type _} (f : γ → α → γ) :
    ∀ (l : List α), (∀ (acc : γ) (a : α), a ∈ l → f acc a = acc) →
      ∀ acc, l.foldl f acc = acc := by
  intro l
  induction l with
  | nil => intro _ acc; rfl
  | cons a t ih =>
    intro h acc
    rw [List.foldl_cons, h acc a (List.mem_cons_self a t)]
    exact ih (fun acc2 a2 ha => h acc2 a2 (List.mem_cons_of_mem a ha)) acc

/-- A one-day batch whose hour map populates only slot `0` reduces to a
single `upsertHour` at `(dn, 0)`. -/
theorem upsertBatch_single (np : String → Option Int) (now : Nat) (s : Store)
    (y : Int) (mn : Option String) (ds : String) (hrs : List (String × Option ℚ))
    (tk : ℚ) (dn : Int) (v : ℚ)
    (hd : parseSourceDate np ds = some dn)
    (h0 : hoursLookup hrs (hourLabel 0) = some v)
    (hrest : ∀ h ∈ List.range' 1 23, hoursLookup hrs (hourLabel h) = none) :
    upsertBatch np now s ⟨y, mn, [⟨ds, hrs, tk⟩]⟩ =
      upsertHour now mn ds (dn, 0) v (s, 0, 0) := by
  have h24 : List.range 24 = 0 :: List.range' 1 23 := by decide
  show upsertDay np now mn (s, 0, 0) ⟨ds, hrs, tk⟩ = _
  simp only [upsertDay, hd, h24, List.foldl_cons, h0]
  exact foldl_skip_all _ (List.range' 1 23)
    (fun acc h2 ha => by simp only [hrest h2 ha]) _

/-! ## The backward scan of the series selector -/

theorem scanBack_eq_firstHit (months : List String) (parsed : String → Option ℚ) :
    ∀ n, scanBack months parsed n = firstHit parsed ((months.enum.take n).reverse) := by
  intro n
  induction n with
  | zero => rfl
  | succ n ih =>
    cases hn : months[n]? with
    | some name =>
      have henum : months.enum[n]? = some (n, name) := by
        rw [List.getElem?_enum, hn]
        rfl
      rw [List.take_succ, henum]
      simp only [Option.toList_some, List.reverse_append, List.reverse_cons,
        List.reverse_nil, List.nil_append, List.singleton_append, firstHit,
        scanBack, hn, ih]
    | none =>
      have henum : months.enum[n]? = none := by
        rw [List.getElem?_enum, hn]
        rfl
      rw [List.take_succ, henum]
      simp only [Option.toList_none, List.append_nil, scanBack, hn, ih]

theorem selectLatest_eq_spec (months : List String) (parsed : String → Option ℚ) :
    selectLatest months parsed = selectLatestSpec months parsed := by
  unfold selectLatest selectLatestSpec
  rw [scanBack_eq_firstHit]
  congr 2
  exact List.take_of_length_le (le_of_eq List.enum_length)

/-! ## Row-processing lemmas for the daily scraper -/

theorem processDay_all_null (dr : DayRow)
    (h : ∀ c ∈ dr.hourlyValues, normalizeNumber c = none) :
    processDay dr = none := by
  unfold processDay
  have hnil : (dayHours dr).filterMap Prod.snd = [] := by
    unfold dayHours
    rw [List.filterMap_map, List.filterMap_eq_nil_iff]
    intro p hp
    have hp2 : p.2 ∈ dr.hourlyValues.take 24 := by
      have := List.mem_map_of_mem Prod.snd hp
      rwa [List.enum_map_snd] at this
    exact h p.2 (List.mem_of_mem_take hp2)
  simp [hnil]

theorem scrapeDays_middle (pre post : List DayRow) (dr : DayRow)
    (h : processDay dr = none) :
    scrapeDays (pre ++ dr :: post) = scrapeDays (pre ++ post) := by
  unfold scrapeDays
  simp only [List.foldl_append, List.foldl_cons, h]

/-! ## The monthly normalizer never yields a negative value -/

theorem parseFloatPos_nonneg (cs : List Char) (q : ℚ)
    (h : parseFloatPos cs = some q) : 0 ≤ q := by
  unfold parseFloatPos at h
  split at h
  · cases h
  · rw [Option.some.injEq] at h
    rw [← h]
    positivity

theorem parseFloatQ_nonneg (cs : List Char) (hhd : ¬ cs.head? = some '-') (q : ℚ)
    (h : parseFloatQ cs = some q) : 0 ≤ q := by
  unfold parseFloatQ at h
  rw [if_neg hhd] at h
  exact parseFloatPos_nonneg cs q h

theorem monthlyDigits_head (raw : String) :
    ¬ (monthlyDigits raw).head? = some '-' := by
  cases hh : monthlyDigits raw with
  | nil => simp
  | cons c t =>
    have hc : c ∈ monthlyDigits raw := hh ▸ List.mem_cons_self c t
    have hpred := List.of_mem_filter hc
    simp only [List.head?_cons, Option.some.injEq]
    intro hc2
    subst hc2
    revert hpred
    decide

theorem normalizeMonthly_nonneg (s : String) (q : ℚ)
    (h : normalizeMonthly s = some q) : 0 ≤ q := by
  unfold normalizeMonthly at h
  split at h
  · cases h
  · split at h
    · cases h
    · exact parseFloatQ_nonneg (monthlyDigits s) (monthlyDigits_head s) q h

/-! ## All-or-nothing behaviour of the transactional wrapper -/

theorem exc_bind_ok {α β : Type _} (a : α) (f : α → Except Unit β) :
    (Except.ok a : Except Unit α) >>= f = f a := rfl

theorem exc_bind_err {α β : Type _} (f : α → Except Unit β) :
    (Except.error () : Except Unit α) >>= f = (Except.error () : Except Unit β) := rfl

theorem qstep_none (c : Nat) : qstep none c = Except.ok (c + 1) := rfl

theorem qstep_cases (f : Option Nat) (c : Nat) :
    qstep f c = Except.error () ∨ qstep f c = Except.ok (c + 1) := by
  unfold qstep
  split
  · exact Or.inl rfl
  · exact Or.inr rfl

theorem upsertHourE_cases (f : Option Nat) (now : Nat) (mn : Option String)
    (ds : String) (k : Key) (v : ℚ) (st : Store × Nat × Nat) (c : Nat) :
    upsertHourE f now mn ds k v st c = Except.error () ∨
      ∃ c2, upsertHourE f now mn ds k v st c
        = Except.ok (upsertHour now mn ds k v st, c2) := by
  unfold upsertHourE
  rcases qstep_cases f c with h | h
  · rw [h, exc_bind_err]
    exact Or.inl rfl
  · rw [h, exc_bind_ok]
    cases hl : lookupS st.1 k with
    | none =>
      dsimp only
      have hins : upsertHour now mn ds k v st
          = ((k, ⟨v, mn, ds, now, now⟩) :: st.1, st.2.1 + 1, st.2.2) :=
        upsertHour_insert now mn ds k v st.1 st.2.1 st.2.2 hl
      rcases qstep_cases f (c + 1) with h2 | h2
      · rw [h2, exc_bind_err]
        exact Or.inl rfl
      · rw [h2, exc_bind_ok]
        rw [hins]
        exact Or.inr ⟨c + 1 + 1, rfl⟩
    | some r =>
      dsimp only
      by_cases hv : (1 : ℚ) / 1000 < v - r.kwh
      · have hupd : upsertHour now mn ds k v st
            = (updateRow st.1 k v mn ds now, st.2.1, st.2.2 + 1) :=
          upsertHour_update now mn ds k v st.1 st.2.1 st.2.2 r hl hv
        rw [if_pos hv, hupd]
        rcases qstep_cases f (c + 1) with h2 | h2
        · rw [h2, exc_bind_err]
          exact Or.inl rfl
        · rw [h2, exc_bind_ok]
          exact Or.inr ⟨c + 1 + 1, rfl⟩
      · have hskip : upsertHour now mn ds k v st = st :=
          upsertHour_skip now mn ds k v st.1 st.2.1 st.2.2 r hl hv
        rw [if_neg hv, hskip]
        exact Or.inr ⟨c + 1, rfl⟩

theorem upsertHourE_ok (now : Nat) (mn : Option String) (ds : String) (k : Key)
    (v : ℚ) (st : Store × Nat × Nat) (c : Nat) :
    ∃ c2, upsertHourE none now mn ds k v st c
      = Except.ok (upsertHour now mn ds k v st, c2) := by
  unfold upsertHourE
  rw [qstep_none, exc_bind_ok]
  cases hl : lookupS st.1 k with
  | none =>
    dsimp only
    have hins : upsertHour now mn ds k v st
        = ((k, ⟨v, mn, ds, now, now⟩) :: st.1, st.2.1 + 1, st.2.2) :=
      upsertHour_insert now mn ds k v st.1 st.2.1 st.2.2 hl
    rw [qstep_none, exc_bind_ok, hins]
    exact ⟨c + 1 + 1, rfl⟩
  | some r =>
    dsimp only
    by_cases hv : (1 : ℚ) / 1000 < v - r.kwh
    · have hupd : upsertHour now mn ds k v st
          = (updateRow st.1 k v mn ds now, st.2.1, st.2.2 + 1) :=
        upsertHour_update now mn ds k v st.1 st.2.1 st.2.2 r hl hv
      rw [if_pos hv, qstep_none, exc_bind_ok, hupd]
      exact ⟨c + 1 + 1, rfl⟩
    · have hskip : upsertHour now mn ds k v st = st :=
        upsertHour_skip now mn ds k v st.1 st.2.1 st.2.2 r hl hv
      rw [if_neg hv, hskip]
      exact ⟨c + 1, rfl⟩

theorem foldlM_exc {α γ : Type _} (pf : γ → α → γ)
    (ef : γ × Nat → α → Except Unit (γ × Nat))
    (hstep : ∀ (g : γ) (c : Nat) (a : α), ef (g, c) a = Except.error () ∨
      ∃ c2, ef (g, c) a = Except.ok (pf g a, c2)) :
    ∀ (l : List α) (g : γ) (c : Nat),
      l.foldlM ef (g, c) = Except.error () ∨
        ∃ c2, l.foldlM ef (g, c) = Except.ok (l.foldl pf g, c2) := by
  intro l
  induction l with
  | nil => intro g c; exact Or.inr ⟨c, rfl⟩
  | cons a t ih =>
    intro g c
    rw [List.foldlM_cons, List.foldl_cons]
    rcases hstep g c a with h | ⟨c2, h⟩
    · rw [h, exc_bind_err]
      exact Or.inl rfl
    · rw [h, exc_bind_ok]
      exact ih (pf g a) c2

theorem foldlM_exc_ok {α γ : Type _} (pf : γ → α → γ)
    (ef : γ × Nat → α → Except Unit (γ × Nat))
    (hstep : ∀ (g : γ) (c : Nat) (a : α),
      ∃ c2, ef (g, c) a = Except.ok (pf g a, c2)) :
    ∀ (l : List α) (g : γ) (c : Nat),
      ∃ c2, l.foldlM ef (g, c) = Except.ok (l.foldl pf g, c2) := by
  intro l
  induction l with
  | nil => intro g c; exact ⟨c, rfl⟩
  | cons a t ih =>
    intro g c
    rw [List.foldlM_cons, List.foldl_cons]
    obtain ⟨c2, h⟩ := hstep g c a
    rw [h, exc_bind_ok]
    exact ih (pf g a) c2

theorem upsertDayE_cases (np : String → Option Int) (f : Option Nat) (now : Nat)
    (mn : Option String) (g : Store × Nat × Nat) (c : Nat) (day : DayReading) :
    upsertDayE np f now mn (g, c) day = Except.error () ∨
      ∃ c2, upsertDayE np f now mn (g, c) day
        = Except.ok (upsertDay np now mn g day, c2) := by
  unfold upsertDayE upsertDay
  cases h : parseSourceDate np day.date with
  | none => exact Or.inr ⟨c, rfl⟩
  | some dn =>
    refine foldlM_exc _ _ (fun g2 c2 h2 => ?_) (List.range 24) g c
    cases hv : hoursLookup day.hours (hourLabel h2) with
    | none => exact Or.inr ⟨c2, rfl⟩
    | some v => exact upsertHourE_cases f now mn day.date (dn, h2) v g2 c2

theorem upsertDayE_ok (np : String → Option Int) (now : Nat)
    (mn : Option String) (g : Store × Nat × Nat) (c : Nat) (day : DayReading) :
    ∃ c2, upsertDayE np none now mn (g, c) day
      = Except.ok (upsertDay np now mn g day, c2) := by
  unfold upsertDayE upsertDay
  cases h : parseSourceDate np day.date with
  | none => exact ⟨c, rfl⟩
  | some dn =>
    refine foldlM_exc_ok _ _ (fun g2 c2 h2 => ?_) (List.range 24) g c
    cases hv : hoursLookup day.hours (hourLabel h2) with
    | none => exact ⟨c2, rfl⟩
    | some v => exact upsertHourE_ok now mn day.date (dn, h2) v g2 c2

theorem daysE_cases (np : String → Option Int) (f : Option Nat) (now : Nat)
    (mn : Option String) (days : List DayReading) (g : Store × Nat × Nat) (c : Nat) :
    days.foldlM (upsertDayE np f now mn) (g, c) = Except.error () ∨
      ∃ c2, days.foldlM (upsertDayE np f now mn) (g, c)
        = Except.ok (days.foldl (upsertDay np now mn) g, c2) :=
  foldlM_exc (upsertDay np now mn) (upsertDayE np f now mn)
    (fun g2 c2 day => upsertDayE_cases np f now mn g2 c2 day) days g c

theorem daysE_ok (np : String → Option Int) (now : Nat) (mn : Option String)
    (days : List DayReading) (g : Store × Nat × Nat) (c : Nat) :
    ∃ c2, days.foldlM (upsertDayE np none now mn) (g, c)
      = Except.ok (days.foldl (upsertDay np now mn) g, c2) :=
  foldlM_exc_ok (upsertDay np now mn) (upsertDayE np none now mn)
    (fun g2 c2 day => upsertDayE_ok np now mn g2 c2 day) days g c

/-- The transaction either publishes exactly the pure batch result or
leaves the committed store untouched and propagates the error. -/
theorem saveE_all_or_nothing (np : String → Option Int) (f : Option Nat) (now : Nat)
    (s : Store) (b : DailyBatch) :
    saveDailyHourlyDataE np f now s b
        = ((upsertBatch np now s b).1,
            Except.ok ((upsertBatch np now s b).2.1, (upsertBatch np now s b).2.2))
      ∨ saveDailyHourlyDataE np f now s b = (s, Except.error ()) := by
  unfold saveDailyHourlyDataE
  rcases qstep_cases f 0 with h0 | h0
  · rw [h0, exc_bind_err]
    exact Or.inr rfl
  · rw [h0, exc_bind_ok]
    rcases daysE_cases np f now b.month b.days (s, 0, 0) (0 + 1) with hd | ⟨c2, hd⟩
    · rw [hd, exc_bind_err]
      exact Or.inr rfl
    · rw [hd, exc_bind_ok]
      dsimp only
      rcases qstep_cases f c2 with hc | hc
      · rw [hc, exc_bind_err]
        exact Or.inr rfl
      · rw [hc, exc_bind_ok]
        exact Or.inl rfl

/-- Without an injected failure the transaction publishes the pure batch
result and returns its counters. -/
theorem saveE_no_failure (np : String → Option Int) (now : Nat) (s : Store)
    (b : DailyBatch) :
    saveDailyHourlyDataE np none now s b
      = ((upsertBatch np now s b).1,
          Except.ok ((upsertBatch np now s b).2.1, (upsertBatch np now s b).2.2)) := by
  unfold saveDailyHourlyDataE
  rw [qstep_none, exc_bind_ok]
  obtain ⟨c2, hd⟩ := daysE_ok np now b.month b.days (s, 0, 0) (0 + 1)
  rw [hd, exc_bind_ok]
  dsimp only
  rw [qstep_none, exc_bind_ok]
  rfl

/-! ## Shared concrete instances for the claims -/

/-- A native fallback date parser failing on every input; the concrete
dates below are decided by the two regex strategies and never reach the
fallback. -/
def npNone : String → Option Int := fun _ => none

/-- The store key of 2025-11-01, hour 0. -/
def exKey : Key := (civilDay 2025 11 1, 0)

/-- An existing row holding 5.0 kwh. -/
def exRow5 : Row := ⟨5, some "Novembre", "01/11/2025", 3, 4⟩

/-- A store holding only `exRow5`. -/
def exStore5 : Store := [(exKey, exRow5)]

/-- A one-day batch reporting value `v` for hour 0 of 2025-11-01. -/
def exBatch (v : ℚ) : DailyBatch :=
  ⟨2025, some "Novembre", [⟨"01/11/2025", [("00:00", some v)], v⟩]⟩

/-- The `DayReading` produced from a row of 24 cells all reading "1,00". -/
def day24 : DayReading :=
  ⟨"01/11/2025", (List.range 24).map (fun h => (hourLabel h, some 1)), 24⟩

/-! ## The claims -/

/-- C1: for every (timestamp, hour) slot with a non-null kwh value,
`saveDailyHourlyData` inserts a missing row and counts it inserted;
against an existing row it overwrites only when
`newValue - existingValue > 0.001`, counting it updated; when the
condition fails the store (with every field of the existing row,
`updated_at` included) and both counters are returned untouched.
Concretely, against a stored 5.0 kwh row, a batch reporting 5.0005 or
4.0 leaves the store unchanged with counts (0, 0), while 6.0 overwrites
the row (new kwh 6.0, fresh `updated_at`, `created_at` kept) with counts
(0, 1). -/
theorem claim_C1 :
    (∀ (now : Nat) (mn : Option String) (ds : String) (k : Key) (v : ℚ)
        (s : Store) (ins upd : Nat), lookupS s k = none →
      upsertHour now mn ds k v (s, ins, upd)
        = ((k, ⟨v, mn, ds, now, now⟩) :: s, ins + 1, upd))
    ∧ (∀ (now : Nat) (mn : Option String) (ds : String) (k : Key) (v : ℚ)
        (s : Store) (ins upd : Nat) (r : Row), lookupS s k = some r →
        (1 : ℚ) / 1000 < v - r.kwh →
      upsertHour now mn ds k v (s, ins, upd)
        = (updateRow s k v mn ds now, ins, upd + 1))
    ∧ (∀ (now : Nat) (mn : Option String) (ds : String) (k : Key) (v : ℚ)
        (s : Store) (ins upd : Nat) (r : Row), lookupS s k = some r →
        ¬ (1 : ℚ) / 1000 < v - r.kwh →
      upsertHour now mn ds k v (s, ins, upd) = (s, ins, upd))
    ∧ upsertBatch npNone 9 exStore5 (exBatch (10001 / 2000)) = (exStore5, 0, 0)
    ∧ upsertBatch npNone 9 exStore5 (exBatch 4) = (exStore5, 0, 0)
    ∧ upsertBatch npNone 9 exStore5 (exBatch 6)
        = ([(exKey, ⟨6, some "Novembre", "01/11/2025", 3, 9⟩)], 0, 1) := by
  have hl : lookupS exStore5 (civilDay 2025 11 1, 0) = some exRow5 := rfl
  refine ⟨upsertHour_insert, upsertHour_update, upsertHour_skip, ?_, ?_, ?_⟩
  · unfold exBatch
    rw [upsertBatch_single npNone 9 exStore5 2025 (some "Novembre") "01/11/2025"
      [("00:00", some (10001 / 2000))] (10001 / 2000) (civilDay 2025 11 1)
      (10001 / 2000) rfl rfl (by decide)]
    exact upsertHour_skip 9 (some "Novembre") "01/11/2025" (civilDay 2025 11 1, 0)
      (10001 / 2000) exStore5 0 0 exRow5 hl (by norm_num [exRow5])
  · unfold exBatch
    rw [upsertBatch_single npNone 9 exStore5 2025 (some "Novembre") "01/11/2025"
      [("00:00", some 4)] 4 (civilDay 2025 11 1) 4 rfl rfl (by decide)]
    exact upsertHour_skip 9 (some "Novembre") "01/11/2025" (civilDay 2025 11 1, 0)
      4 exStore5 0 0 exRow5 hl (by norm_num [exRow5])
  · unfold exBatch
    rw [upsertBatch_single npNone 9 exStore5 2025 (some "Novembre") "01/11/2025"
      [("00:00", some 6)] 6 (civilDay 2025 11 1) 6 rfl rfl (by decide)]
    rw [upsertHour_update 9 (some "Novembre") "01/11/2025" (civilDay 2025 11 1, 0)
      6 exStore5 0 0 exRow5 hl (by norm_num [exRow5])]
    rfl

/-- C1 witness: the skip case at a concrete input — the stored 5.0 row is
found, 4.0 does not exceed it by more than the epsilon, and the slot
operation returns the store and counters untouched. -/
theorem claim_C1_witness :
    lookupS exStore5 exKey = some exRow5
    ∧ ¬ (1 : ℚ) / 1000 < 4 - exRow5.kwh
    ∧ upsertHour 7 (some "M") "d" exKey 4 (exStore5, 0, 0) = (exStore5, 0, 0) :=
  ⟨rfl, by norm_num [exRow5],
    claim_C1.2.2.1 7 (some "M") "d" exKey 4 exStore5 0 0 exRow5 rfl
      (by norm_num [exRow5])⟩

/-- C2 (amended): both numeric normalizers map `"1.234,56"` to 1234.56,
`""` and `"abc"` to null, and never throw (they are total functions);
but they are NOT idempotent on dot-decimal input: `"12.3"` maps to 123,
not 12.3, because every dot is removed as a thousand separator before
parsing. -/
theorem claim_C2 :
    normalizeNumber "1.234,56" = some (123456 / 100)
    ∧ normalizeMonthly "1.234,56" = some (123456 / 100)
    ∧ normalizeNumber "" = none
    ∧ normalizeMonthly "" = none
    ∧ normalizeNumber "abc" = none
    ∧ normalizeMonthly "abc" = none
    ∧ normalizeNumber "12.3" = some 123
    ∧ normalizeMonthly "12.3" = some 123 := by
  have h1 : normalizeNumber "1.234,56"
      = some (((1234 : ℕ) : ℚ) + ((56 : ℕ) : ℚ) / (10 : ℚ) ^ (2 : ℕ)) := rfl
  have h2 : normalizeMonthly "1.234,56"
      = some (((1234 : ℕ) : ℚ) + ((56 : ℕ) : ℚ) / (10 : ℚ) ^ (2 : ℕ)) := rfl
  have h3 : normalizeNumber "12.3"
      = some (((123 : ℕ) : ℚ) + ((0 : ℕ) : ℚ) / (10 : ℚ) ^ (0 : ℕ)) := rfl
  have h4 : normalizeMonthly "12.3"
      = some (((123 : ℕ) : ℚ) + ((0 : ℕ) : ℚ) / (10 : ℚ) ^ (0 : ℕ)) := rfl
  refine ⟨?_, ?_, rfl, rfl, rfl, rfl, ?_, ?_⟩
  · rw [h1, Option.some.injEq]; norm_num
  · rw [h2, Option.some.injEq]; norm_num
  · rw [h3, Option.some.injEq]; norm_num
  · rw [h4, Option.some.injEq]; norm_num

/-- C2 counterexample: the idempotence instance of the claim fails — neither
normalizer maps `"12.3"` to 12.3. -/
theorem claim_C2_cex :
    ¬ normalizeNumber "12.3" = some (123 / 10)
    ∧ ¬ normalizeMonthly "12.3" = some (123 / 10) := by
  have h3 : normalizeNumber "12.3"
      = some (((123 : ℕ) : ℚ) + ((0 : ℕ) : ℚ) / (10 : ℚ) ^ (0 : ℕ)) := rfl
  have h4 : normalizeMonthly "12.3"
      = some (((123 : ℕ) : ℚ) + ((0 : ℕ) : ℚ) / (10 : ℚ) ^ (0 : ℕ)) := rfl
  constructor
  · rw [h3]
    simp only [Option.some.injEq]
    norm_num
  · rw [h4]
    simp only [Option.some.injEq]
    norm_num

/-- C3: the day/month/year input `"01/11/2025"` and the ISO input
`"2025-11-01"` are parsed by the first two strategies (never consulting
the native fallback `np`) to the same calendar date, 2025-11-01, so rows
ingested under either format share the same (timestamp, hour) key. -/
theorem claim_C3 :
    ∀ np : String → Option Int,
      parseSourceDate np "01/11/2025" = some (civilDay 2025 11 1)
      ∧ parseSourceDate np "2025-11-01" = some (civilDay 2025 11 1) := by
  intro np
  exact ⟨rfl, rfl⟩

/-- C4 (amended): re-applying an identical batch is a no-op — the second
application returns `{inserted: 0, updated: 0}` (not the inserted count of the first run) and leaves the store bit-for-bit unchanged, so no
duplicate (timestamp, hour) key and no spurious update is possible. -/
theorem claim_C4 :
    ∀ (np : String → Option Int) (now now2 : Nat) (s : Store) (b : DailyBatch),
      upsertBatch np now2 (upsertBatch np now s b).1 b
        = ((upsertBatch np now s b).1, 0, 0) := by
  intro np now now2 s b
  rw [upsertBatch_eq_ops np now2, upsertBatch_eq_ops np now]
  exact foldl_hourStep_skip now2 b.month (batchOps np b) _
    (fun o ho => foldl_hourStep_covered now b.month (batchOps np b) (s, 0, 0) o ho)

/-- C4 counterexample: a first application to the empty store inserts 1
row, but the second application of the identical batch reports 0
inserted — not the N = 1 of the first run as the claim states. -/
theorem claim_C4_cex :
    (upsertBatch npNone 0 [] (exBatch 1)).2.1 = 1
    ∧ (upsertBatch npNone 1 (upsertBatch npNone 0 [] (exBatch 1)).1 (exBatch 1)).2.1 = 0
    ∧ ¬ (0 : Nat) = 1 := by
  have h1 : upsertBatch npNone 0 [] (exBatch 1)
      = ([((civilDay 2025 11 1, 0), ⟨1, some "Novembre", "01/11/2025", 0, 0⟩)], 1, 0) := by
    unfold exBatch
    rw [upsertBatch_single npNone 0 [] 2025 (some "Novembre") "01/11/2025"
      [("00:00", some 1)] 1 (civilDay 2025 11 1) 1 rfl rfl (by decide)]
    exact upsertHour_insert 0 (some "Novembre") "01/11/2025" (civilDay 2025 11 1, 0)
      1 [] 0 0 rfl
  refine ⟨by rw [h1], ?_, by decide⟩
  rw [h1]
  show (upsertBatch npNone 1
    [((civilDay 2025 11 1, 0), ⟨1, some "Novembre", "01/11/2025", 0, 0⟩)]
    (exBatch 1)).2.1 = 0
  unfold exBatch
  rw [upsertBatch_single npNone 1
    [((civilDay 2025 11 1, 0), ⟨1, some "Novembre", "01/11/2025", 0, 0⟩)]
    2025 (some "Novembre") "01/11/2025" [("00:00", some 1)] 1 (civilDay 2025 11 1) 1
    rfl rfl (by decide)]
  rw [upsertHour_skip 1 (some "Novembre") "01/11/2025" (civilDay 2025 11 1, 0) 1
    [((civilDay 2025 11 1, 0), ⟨1, some "Novembre", "01/11/2025", 0, 0⟩)] 0 0
    ⟨1, some "Novembre", "01/11/2025", 0, 0⟩ rfl (by norm_num)]

/-- C5: the batch runs inside one transaction — for every error oracle
the call either publishes exactly the pure batch result with its
inserted/updated counts, or any query failure rolls the whole batch back
(committed store exactly as before the call) and the error propagates to
the caller; with no failure injected it always publishes. -/
theorem claim_C5 :
    (∀ (np : String → Option Int) (f : Option Nat) (now : Nat) (s : Store)
        (b : DailyBatch),
      saveDailyHourlyDataE np f now s b
          = ((upsertBatch np now s b).1,
              Except.ok ((upsertBatch np now s b).2.1, (upsertBatch np now s b).2.2))
        ∨ saveDailyHourlyDataE np f now s b = (s, Except.error ()))
    ∧ (∀ (np : String → Option Int) (now : Nat) (s : Store) (b : DailyBatch),
      saveDailyHourlyDataE np none now s b
        = ((upsertBatch np now s b).1,
            Except.ok ((upsertBatch np now s b).2.1, (upsertBatch np now s b).2.2))) :=
  ⟨saveE_all_or_nothing, saveE_no_failure⟩

/-- C6: the selector scans the ordered month sequence from the end
backward and returns the first entry whose parsed value is non-null,
with its index (the general equality with the literal backward-scan
specification), and on the three concrete series it returns
`("Jan", 0)`, `("Feb", 1)` (a parsed zero is a valid reading), and
none respectively. -/
theorem claim_C6 :
    (∀ (months : List String) (parsed : String → Option ℚ),
      selectLatest months parsed = selectLatestSpec months parsed)
    ∧ selectLatest ["Jan", "Feb", "Mar"]
        (fun m => if m = "Jan" then some 5 else none) = some ("Jan", 0)
    ∧ selectLatest ["Jan", "Feb"]
        (fun m => if m = "Feb" then some 0 else none) = some ("Feb", 1)
    ∧ selectLatest ["Jan", "Feb"] (fun _ => none) = none := by
  refine ⟨selectLatest_eq_spec, ?_, ?_, ?_⟩ <;> decide

/-- C7: a day whose date string no strategy parses is skipped as a
structured `none` (never an exception): the batch result is exactly the
result of the batch without that day, so the rows of the remaining days are
still applied and the transaction is not aborted. -/
theorem claim_C7 :
    ∀ (np : String → Option Int) (now : Nat) (s : Store) (y : Int)
      (mn : Option String) (ds : String) (hrs : List (String × Option ℚ)) (tk : ℚ)
      (d1 d2 : List DayReading),
      parseSourceDate np ds = none →
      upsertBatch np now s ⟨y, mn, d1 ++ ⟨ds, hrs, tk⟩ :: d2⟩
        = upsertBatch np now s ⟨y, mn, d1 ++ d2⟩ := by
  intro np now s y mn ds hrs tk d1 d2 h
  unfold upsertBatch
  simp only [List.foldl_append, List.foldl_cons]
  have hskip : ∀ acc, upsertDay np now mn acc ⟨ds, hrs, tk⟩ = acc := by
    intro acc
    simp only [upsertDay, h]
  rw [hskip]

/-- C7 witness: `"not-a-date"` parses to a structured failure under a
failing fallback, and a batch containing only that day upserts exactly
like the empty batch. -/
theorem claim_C7_witness :
    parseSourceDate npNone "not-a-date" = none
    ∧ upsertBatch npNone 0 []
        ⟨2025, none, [] ++ (⟨"not-a-date", [], 0⟩ : DayReading) :: []⟩
      = upsertBatch npNone 0 [] ⟨2025, none, [] ++ []⟩ :=
  ⟨rfl, claim_C7 npNone 0 [] 2025 none "not-a-date" [] 0 [] [] rfl⟩

/-- C8 (amended): every emitted `DayReading` has
`totalKwh = round3 (sum of its non-null hourly values)`, and its hour
map holds exactly the labels `"00:00" …` for the first
`min(24, provided cells)` hours — which is the full 24 canonical slots
only when the row provides at least 24 value cells, not for every row. -/
theorem claim_C8 :
    ∀ (dr : DayRow) (d : DayReading), processDay dr = some d →
      d.hours.map Prod.fst
          = (List.range (min 24 dr.hourlyValues.length)).map hourLabel
      ∧ d.total_kwh = round3 ((d.hours.filterMap Prod.snd).sum)
      ∧ (24 ≤ dr.hourlyValues.length →
          d.hours.map Prod.fst = (List.range 24).map hourLabel) := by
  intro dr d h
  unfold processDay at h
  split at h
  · rw [Option.some.injEq] at h
    subst h
    have hkeys : (dayHours dr).map Prod.fst
        = (List.range (min 24 dr.hourlyValues.length)).map hourLabel := by
      unfold dayHours
      rw [List.map_map]
      have hcomp :
          (Prod.fst ∘ fun p : Nat × String => (hourLabel p.1, normalizeNumber p.2))
            = hourLabel ∘ Prod.fst := rfl
      rw [hcomp, ← List.map_map, List.enum_map_fst, List.length_take]
    refine ⟨hkeys, rfl, fun h24 => ?_⟩
    rw [hkeys, min_eq_left h24]
  · cases h

/-- C8 witness: a row of 24 cells all reading `"1,00"` is emitted with
exactly the 24 canonical hour labels. -/
theorem claim_C8_witness :
    processDay ⟨"01/11/2025", List.replicate 24 "1,00"⟩ = some day24
    ∧ day24.hours.map Prod.fst
        = (List.range (min 24 (List.replicate 24 "1,00" : List String).length)).map
            hourLabel :=
  ⟨by with_unfolding_all decide,
    (claim_C8 ⟨"01/11/2025", List.replicate 24 "1,00"⟩ day24
      (by with_unfolding_all decide)).1⟩

/-- C8 counterexample: a scraped row offering a single value cell is
emitted with a one-key hour map, not the 24 canonical keys the claim
requires for every row. -/
theorem claim_C8_cex :
    (processDay ⟨"01/11/2025", ["1,00"]⟩).map (fun d => d.hours.map Prod.fst)
        = some ["00:00"]
    ∧ ¬ (["00:00"] : List String) = (List.range 24).map hourLabel := by
  exact ⟨rfl, by decide⟩

/-- C9: a scraped row whose hourly cells all normalize to null is not
emitted at all — `processDay` returns none and the scraped `days` list
is the same as if the row were absent. -/
theorem claim_C9 :
    ∀ dr : DayRow, (∀ c ∈ dr.hourlyValues, normalizeNumber c = none) →
      processDay dr = none
      ∧ ∀ (pre post : List DayRow),
          scrapeDays (pre ++ dr :: post) = scrapeDays (pre ++ post) := by
  intro dr h
  have hp := processDay_all_null dr h
  exact ⟨hp, fun pre post => scrapeDays_middle pre post dr hp⟩

/-- C9 witness: a row whose two cells are `"-"` and `"abc"` (both null
after normalization) produces no `DayReading`. -/
theorem claim_C9_witness :
    (∀ c ∈ (["-", "abc"] : List String), normalizeNumber c = none)
    ∧ processDay ⟨"01/11/2025", ["-", "abc"]⟩ = none :=
  ⟨by decide, (claim_C9 ⟨"01/11/2025", ["-", "abc"]⟩ (by decide)).1⟩

/-- C10: the daily normalizer keeps a leading minus sign — `"-1,5"`
parses to -1.5, which then qualifies for insertion (a one-day batch
carrying it inserts one row) — while the monthly normalizer strips the
minus and yields +1.5 on the same input, and in general every parsed
monthly value is non-negative. -/
theorem claim_C10 :
    normalizeNumber "-1,5" = some (-(3 / 2))
    ∧ normalizeMonthly "-1,5" = some (3 / 2)
    ∧ (upsertBatch npNone 0 [] ⟨2025, some "Novembre",
        [⟨"01/11/2025", [("00:00", normalizeNumber "-1,5")], -(3 / 2)⟩]⟩).2.1 = 1
    ∧ (∀ (s : String) (q : ℚ), normalizeMonthly s = some q → 0 ≤ q) := by
  have hn : normalizeNumber "-1,5" = some (-(3 / 2)) := by
    have h : normalizeNumber "-1,5"
        = some (-(((1 : ℕ) : ℚ) + ((5 : ℕ) : ℚ) / (10 : ℚ) ^ (1 : ℕ))) := rfl
    rw [h, Option.some.injEq]
    norm_num
  have hm : normalizeMonthly "-1,5" = some (3 / 2) := by
    have h : normalizeMonthly "-1,5"
        = some (((1 : ℕ) : ℚ) + ((5 : ℕ) : ℚ) / (10 : ℚ) ^ (1 : ℕ)) := rfl
    rw [h, Option.some.injEq]
    norm_num
  refine ⟨hn, hm, ?_, normalizeMonthly_nonneg⟩
  have h0 : hoursLookup [("00:00", normalizeNumber "-1,5")] (hourLabel 0)
      = some (-(3 / 2)) := by
    rw [show hoursLookup [("00:00", normalizeNumber "-1,5")] (hourLabel 0)
      = normalizeNumber "-1,5" from rfl, hn]
  rw [upsertBatch_single npNone 0 [] 2025 (some "Novembre") "01/11/2025"
    [("00:00", normalizeNumber "-1,5")] (-(3 / 2)) (civilDay 2025 11 1) (-(3 / 2))
    rfl h0 (by decide)]
  rw [upsertHour_insert 0 (some "Novembre") "01/11/2025" (civilDay 2025 11 1, 0)
    (-(3 / 2)) [] 0 0 rfl]

/-- C10 witness: the non-negativity of the monthly normalizer at the
concrete input `"1,5"`. -/
theorem claim_C10_witness :
    normalizeMonthly "1,5" = some (3 / 2) ∧ (0 : ℚ) ≤ 3 / 2 := by
  have hm : normalizeMonthly "1,5" = some (3 / 2) := by
    have h : normalizeMonthly "1,5"
        = some (((1 : ℕ) : ℚ) + ((5 : ℕ) : ℚ) / (10 : ℚ) ^ (1 : ℕ)) := rfl
    rw [h, Option.some.injEq]
    norm_num
  exact ⟨hm, claim_C10.2.2.2 "1,5" (3 / 2) hm⟩

end Edyna
